import Mathlib

/-!
Verification of the FluorSpec correction / quantum-yield pipeline
(`Analyse.py`, `PTI_Data.py`) against its specification.

The Python code is shallowly embedded: floating-point numbers are modelled
as exact reals, numpy element-wise operations as `List.zipWith` / `List.map`,
and Python exceptions (and the source's print-and-return-None failure style)
as an `Except` monad.  Real division by zero is Lean's junk value `0`;
no theorem below depends on the value produced by a zero division or by the
mean of an empty slice (numpy would give `inf`/`nan` there), only on whether
the surrounding computation returns at all.

`PTI_Data.py` in this repository defines `WL`, `Spec`, `SpecRaw`, `Trace`
but not the uncertainty arrays (`UTrace`, `USpecRaw`), the corrected arrays
(`SpecCorrected`, `USpecCorrected`) or `RegisterCorrSpec`, all of which
`Analyse.py` uses.  Those fields are modelled from the spec (section 3:
raw/corrected intensity and uncertainty arrays of the spectrum record,
corrected fields populated by the corrector) as optional fields of the
record; reading an absent field is Python's AttributeError.
-/

noncomputable section

namespace FluorSpec

/-- Failure values of the embedded Python code: genuine exceptions
(TypeError, ValueError, IndexError, AttributeError, UnboundLocalError)
together with the print-an-error-and-return-None exits of `Analyse.py`
(bad file type, unknown/missing correction, run-type mismatch,
non-synchronous extra correction). -/
inductive PyErr where
  | typeErr
  | valueErr
  | indexErr
  | attributeErr
  | unboundLocalErr
  | badFile
  | noCorrection
  | runTypeMismatch
  | extraCorrNotSync
  deriving DecidableEq

/-- `RunTypes = Enum('RunType', 'Unknown Emission Excitation Synchronous')`
from `PTI_Data.py`; Python `Enum` numbers members from 1. -/
inductive RunType where
  | unknown
  | emission
  | excitation
  | synchronous
  deriving DecidableEq

/-- The Python `.value` of a `RunType` member. -/
def RunType.val : RunType → ℕ
  | .unknown => 1
  | .emission => 2
  | .excitation => 3
  | .synchronous => 4

/-- `FileTypes = Enum('FileType', 'Unknown Session Trace Group')` from
`PTI_Data.py`. -/
inductive FileType where
  | unknown
  | session
  | trace
  | group
  deriving DecidableEq

/-- The Python `.value` of a `FileType` member. -/
def FileType.val : FileType → ℕ
  | .unknown => 1
  | .session => 2
  | .trace => 3
  | .group => 4

/-- A `PTI_Data` object.  `wl`, `spec`, `specRaw`, `trace`, `runType` and
`fileType` are the fields set by `PTI_Data.py`; which of the intensity
fields is populated depends on the file.  Modelled from the spec: the
uncertainty arrays `uspecRaw`/`utrace` (Poisson uncertainties of the raw
arrays) and the corrected arrays `specCorrected`/`uspecCorrected`
(populated by the corrector via `RegisterCorrSpec`), which `Analyse.py`
reads but this repository's `PTI_Data.py` does not declare. -/
structure PTIData where
  wl : List ℝ
  runType : RunType
  fileType : FileType
  spec : Option (List ℝ) := none
  specRaw : Option (List ℝ) := none
  uspecRaw : Option (List ℝ) := none
  trace : Option (List ℝ) := none
  utrace : Option (List ℝ) := none
  specCorrected : Option (List ℝ) := none
  uspecCorrected : Option (List ℝ) := none

/-- Reading a Python attribute that may be absent: Python raises
`AttributeError` when the object does not have the attribute. -/
def pyAttr {α : Type} (x : Option α) : Except PyErr α :=
  match x with
  | some a => .ok a
  | none => .error .attributeErr

/-- Element lookup by structural recursion (used by `pyGet`; out-of-range
gives `IndexError`). -/
def listAt : List ℝ → ℕ → Except PyErr ℝ
  | [], _ => .error .indexErr
  | a :: _, 0 => .ok a
  | _ :: rest, n + 1 => listAt rest n

/-- Python list indexing `l[i]`: a negative index counts from the end;
an index outside `[-len l, len l)` raises `IndexError`. -/
def pyGet (l : List ℝ) (i : ℤ) : Except PyErr ℝ :=
  let j : ℤ := if i < 0 then i + l.length else i
  if 0 ≤ j ∧ j < l.length then listAt l j.toNat else .error .indexErr

/-- Effective bound of a Python slice endpoint for a list of length `n`. -/
def pySliceIdx (n : ℕ) (i : ℤ) : ℕ :=
  if i < 0 then (i + n).toNat else min i.toNat n

/-- Python slicing `l[a:b]` (step 1): endpoints are wrapped and clamped,
never raising; the result is empty when the effective start is at or past
the effective end. -/
def pySlice {α : Type} (l : List α) (a b : ℤ) : List α :=
  (l.take (pySliceIdx l.length b)).drop (pySliceIdx l.length a)

/-- Python `list.index(v)`: index of the first occurrence of `v`, or
`ValueError` when `v` is not in the list. -/
def pyIndex (l : List ℝ) (v : ℝ) : Except PyErr ℕ :=
  match l with
  | [] => .error .valueErr
  | a :: rest => if a = v then .ok 0 else (pyIndex rest v).map (· + 1)

/-- Evaluation helper: `Int.toNat` of a numeral. -/
theorem int_toNat_lit (n : ℕ) :
    (Int.toNat (no_index (OfNat.ofNat n)) : ℕ) = OfNat.ofNat n := rfl

/-- `np.mean` of a list; numpy yields `nan` (with a warning) on an empty
array, modelled here by the junk value `0/0 = 0` — no theorem depends on
the value of an empty mean. -/
def npMean (l : List ℝ) : ℝ := l.sum / l.length

/-- Interpolation scan of `np.interp` once `x` is at or past the first
sample point `x0` (with current value `y0`): find the first remaining
sample at or past `x` and interpolate linearly; past the last sample the
`right` fill value is returned. -/
def interpGo (x r : ℝ) : ℝ → ℝ → List (ℝ × ℝ) → ℝ
  | x0, y0, [] => if x0 < x then r else y0
  | x0, y0, (x1, y1) :: rest =>
      if x ≤ x1 then y0 + (y1 - y0) * (x - x0) / (x1 - x0)
      else interpGo x r x1 y1 rest

/-- `np.interp(x, xp, fp, left, right)` for increasing `xp`: piecewise
linear interpolation, `left`/`right` fill values outside the domain.
numpy raises on an empty `xp`; that case (junk `0` here) is excluded by
hypothesis wherever this is used. -/
def npInterp (x : ℝ) (xp fp : List ℝ) (left right : ℝ) : ℝ :=
  match xp, fp with
  | x0 :: xs, y0 :: ys => if x < x0 then left else interpGo x right x0 y0 (xs.zip ys)
  | _, _ => 0

/-- `np.interp(x, xp, fp)` with the default fill values `fp[0]` / `fp[-1]`
(clamping outside the domain). -/
def npInterpD (x : ℝ) (xp fp : List ℝ) : ℝ :=
  npInterp x xp fp fp.headI (fp.getLastD 0)

/-- Nearest-sample index resolution used throughout `Analyse.py`:
`wl.index(np.interp(t, wl, wl))` — self-interpolation of the wavelength
axis followed by an exact list lookup. -/
def nearestIdx (t : ℝ) (wl : List ℝ) : Except PyErr ℕ :=
  pyIndex wl (npInterpD t wl wl)

/-- The recognized correction keys: the keys of the `CorrFiles` table of
`FluorSpecReader`. -/
def corrKeys : List String :=
  ["emcorri", "emcorr-sphere", "emcorr-sphere-quanta", "excorr", "default"]

/-- `GetCorrData`: for a key not in `CorrFiles` an error is printed and
`None` returned.  For a known key the source constructs a `PTI_Data` from
the correction file on disk; reading files is outside the core, so the
parsed curve is abstracted by the `getCorr` argument.  (The source would
crash constructing `PTI_Data(None)` for the key `"default"`, but
`ApplyCorrFileToRaw` never calls it with that key.) -/
def GetCorrData (getCorr : String → PTIData) (key : String) : Option PTIData :=
  if key ∈ corrKeys then some (getCorr key) else none

/-- Lines 61–69 of `Analyse.py`: choose the raw intensity/uncertainty
arrays by file type — `FileType.value > 1` reads `Trace`/`UTrace`,
`value == 1` reads `SpecRaw`/`USpecRaw`, anything else prints a bad-file
error and returns. -/
def getRawArrays (data : PTIData) : Except PyErr (List ℝ × List ℝ) :=
  if data.fileType.val > 1 then do
    let r ← pyAttr data.trace
    let u ← pyAttr data.utrace
    pure (r, u)
  else if data.fileType.val = 1 then do
    let r ← pyAttr data.specRaw
    let u ← pyAttr data.uspecRaw
    pure (r, u)
  else .error .badFile

/-- Lines 70–81 of `Analyse.py`: resolve the correction values at the
spectrum wavelengths.  For a non-default key the curve is fetched (missing
curve → print and return), its run type checked against the data, and its
trace interpolated onto `data.WL` with fill value `0` on both sides.  For
the key `"default"` the source executes `CorrVals = [1 for i in
len(rawspec)]`, which iterates over an `int` and raises
`TypeError: 'int' object is not iterable`. -/
def resolveCorrVals (getCorr : String → PTIData) (data : PTIData) (key : String) :
    Except PyErr (List ℝ) :=
  if key ≠ "default" then
    match GetCorrData getCorr key with
    | none => .error .noCorrection
    | some corr =>
      if data.runType.val ≠ corr.runType.val then .error .runTypeMismatch
      else do
        let ctr ← pyAttr corr.trace
        pure (data.wl.map fun x => npInterp x corr.wl ctr 0 0)
  else .error .typeErr

/-- Lines 96–109 of `Analyse.py`: the optional synchronous-scan extra
correction.  Requires `extracorr.RunType.name == 'Synchronous'`, divides
the corrected data by the extra spectrum's corrected intensity
interpolated onto the main axis, and recombines the uncertainty by
first-order quotient propagation. -/
def extraCorrStage (data ec : PTIData) (corrData uCorrData : List ℝ) :
    Except PyErr (List ℝ × List ℝ) :=
  if ec.runType ≠ .synchronous then .error .extraCorrNotSync
  else do
    let ecSpec ← pyAttr ec.spec
    let evals := data.wl.map fun x => npInterpD x ec.wl ecSpec
    let cde := List.zipWith (· / ·) corrData evals
    let ecRaw ← pyAttr ec.specRaw
    let rawe := data.wl.map fun x => npInterpD x ec.wl ecRaw
    let urawe := rawe.map Real.sqrt
    let ue := List.zipWith (· * ·) evals (List.zipWith (· / ·) urawe rawe)
    let ucde := List.zipWith (fun a b => Real.sqrt (a ^ 2 + b ^ 2))
      (List.zipWith (fun ev uc => 1 / ev * uc) evals uCorrData)
      (List.zipWith (· * ·) (List.zipWith (· / ·) cde evals) ue)
    pure (cde, ucde)

/-- `ApplyCorrFileToRaw` (lines 45–122 of `Analyse.py`), returning the
`(CorrData, UCorrData)` pair.  Plotting (`MakePlots`) has no effect on the
result and is not modelled. -/
def ApplyCorrFileToRaw (getCorr : String → PTIData) (data : PTIData) (key : String)
    (bckgnd : List ℝ) (extracorr : Option PTIData) (factor : Option ℝ) :
    Except PyErr (List ℝ × List ℝ) := do
  let ru ← getRawArrays data
  let corrVals ← resolveCorrVals getCorr data key
  let corrData := List.zipWith (· * ·) (List.zipWith (· - ·) ru.1 bckgnd) corrVals
  let ubckgnd := bckgnd.map Real.sqrt
  let uCorrData := List.zipWith (· * ·)
    (List.zipWith (fun u ub => Real.sqrt (u ^ 2 + ub ^ 2)) ru.2 ubckgnd) corrVals
  let step ← match extracorr with
    | none => pure (corrData, uCorrData)
    | some ec => extraCorrStage data ec corrData uCorrData
  match factor with
  | none => pure step
  | some f => pure (step.1.map (· * f), step.2.map (· * f))

/-- The mutation performed by a full `ApplyCorrFileToRaw` call:
`data.RegisterCorrSpec(CorrData, UCorrData)` runs only at the end of the
success path (line 121).  `RegisterCorrSpec` is absent from this
repository's `PTI_Data.py` and is modelled from the spec: it stores the
corrected spectrum and its uncertainty on the record.  Every failure path
returns before it, leaving the record unchanged. -/
def applyCorrAndRegister (getCorr : String → PTIData) (data : PTIData) (key : String)
    (bckgnd : List ℝ) (extracorr : Option PTIData) (factor : Option ℝ) : PTIData :=
  match ApplyCorrFileToRaw getCorr data key bckgnd extracorr factor with
  | .ok cu => { data with specCorrected := some cu.1, uspecCorrected := some cu.2 }
  | .error _ => data

/-- `CalcStraightLine` (lines 231–238 of `Analyse.py`): straight-line
baseline through the local averages of the `avglen` samples after
`endidx` and before `startidx`.  Indices are Python ints: negative values
wrap in the three scalar accesses and in the slices; `int(avglen/2)` is
truncating division. -/
def CalcStraightLine (WL spec : List ℝ) (startidx endidx : ℤ) (avglen : ℕ) :
    Except PyErr (List ℝ) := do
  let w1 ← pyGet WL (endidx + (avglen / 2 : ℕ))
  let w2 ← pyGet WL (startidx - (avglen / 2 : ℕ))
  let gradient := (npMean (pySlice spec endidx (endidx + avglen)) -
      npMean (pySlice spec (startidx - avglen) startidx)) / (w1 - w2)
  let we ← pyGet WL endidx
  let c := npMean (pySlice spec endidx (endidx + avglen)) - gradient * we
  pure (WL.map fun x => x * gradient + c)

/-- `CalcReabsProb` (lines 240–289 of `Analyse.py`).  `normWL` is the
already-resolved normalization index (the caller passes
`dilute.WL.index(...)`).  Note: source line 266 slices the dilute
corrected spectrum with the *sphere* window indices
(`StartIdx_Sphere:EndIdx_Sphere`) when computing `Uinteg_Dilute`, unlike
line 264 which uses the dilute window for `integ_Dilute`. -/
def CalcReabsProb (sphere : PTIData) (em_start em_end : ℝ) (normWL : ℕ)
    (emBLFluor : List ℝ) (dilute : PTIData) : Except PyErr (ℝ × ℝ) := do
  let sIdxSphere ← nearestIdx em_start sphere.wl
  let eIdxSphere ← nearestIdx em_end sphere.wl
  let sIdxDilute ← nearestIdx em_start dilute.wl
  let eIdxDilute ← nearestIdx em_end dilute.wl
  let sphCorr ← pyAttr sphere.specCorrected
  let spherespec := List.zipWith (· - ·) sphCorr emBLFluor
  let nv ← pyGet spherespec normWL
  let integSphere := ((pySlice spherespec sIdxSphere eIdxSphere).map (· / nv)).sum
  let uIntegSphere := Real.sqrt (((pySlice spherespec sIdxSphere eIdxSphere).map
      fun a => (a / nv) ^ 2).sum)
  let dilCorr ← pyAttr dilute.specCorrected
  let dnv ← pyGet dilCorr normWL
  let integDilute := ((pySlice dilCorr sIdxDilute eIdxDilute).map (· / dnv)).sum
  let uIntegDilute := Real.sqrt (((pySlice dilCorr sIdxSphere eIdxSphere).map
      fun a => (a / dnv) ^ 2).sum)
  let w := 1 - integSphere / integDilute
  let uw := Real.sqrt (1 / integDilute ^ 2 * uIntegSphere ^ 2 +
      (integSphere / integDilute ^ 2) ^ 2 * uIntegDilute ^ 2)
  pure (w, uw)

/-- Lines 187–190 of `Analyse.py`: fold the reabsorption weight into the
raw quantum yield and its uncertainty. -/
def qyFinal (QY UQY w Uw : ℝ) : ℝ × ℝ :=
  let QYw := QY / (1 - w + w * QY)
  let UQYw := Real.sqrt ((QYw / QY) ^ 2 * UQY ^ 2 +
    ((1 - QY) * QYw / (1 - w + w * QY)) ^ 2 * Uw ^ 2)
  (QYw, UQYw)

/-- `CalculateQY_2MM` (lines 124–229 of `Analyse.py`).  Returns the
`(QY, UQY)` pair; console/plot output (`verbose`) is not modelled.  The
quotients involving `N_Tot_empty - N_Tot_sample` are numpy float
divisions, which never raise (a zero denominator yields `inf`/`nan` with
a warning — junk value here); when `dilute` and `normWL` are supplied but
`dilute.SpecCorrected` is `None`, the locals `w`/`Uw` are never assigned
and their first use raises `UnboundLocalError`. -/
def CalculateQY_2MM (fluor solvent : PTIData)
    (scat_start scat_end em_start em_end : ℝ) (use_solvent_BL : Bool)
    (dilute : Option PTIData) (normWL : Option ℝ) (avglen : ℕ) :
    Except PyErr (ℝ × ℝ) := do
  let ssSol ← nearestIdx scat_start solvent.wl
  let seSol ← nearestIdx scat_end solvent.wl
  let ssFl ← nearestIdx scat_start fluor.wl
  let seFl ← nearestIdx scat_end fluor.wl
  let esFl ← nearestIdx em_start fluor.wl
  let eeFl ← nearestIdx em_end fluor.wl
  let flCorr ← pyAttr fluor.specCorrected
  let scatBLFl ← CalcStraightLine fluor.wl flCorr ssFl seFl avglen
  let solCorr ← pyAttr solvent.specCorrected
  let scatBLSol ← CalcStraightLine solvent.wl solCorr ssSol seSol avglen
  let emBLFl ← if use_solvent_BL then pure solCorr
    else CalcStraightLine fluor.wl flCorr esFl eeFl avglen
  let nEmitted := (List.zipWith (· - ·)
    (pySlice flCorr esFl eeFl) (pySlice emBLFl esFl eeFl)).sum
  let flUCorr ← pyAttr fluor.uspecCorrected
  let uNEmitted := Real.sqrt ((pySlice flUCorr esFl eeFl).map (· ^ 2)).sum
  let solUCorr ← pyAttr solvent.uspecCorrected
  let nTotEmpty := (List.zipWith (· - ·)
    (pySlice solCorr ssSol seSol) (pySlice scatBLSol ssSol seSol)).sum
  let uNTotEmpty := Real.sqrt ((pySlice solUCorr ssSol seSol).map (· ^ 2)).sum
  let nTotSample := (List.zipWith (· - ·)
    (pySlice flCorr ssFl seFl) (pySlice scatBLFl ssFl seFl)).sum
  let uNTotSample := Real.sqrt ((pySlice flUCorr ssFl seFl).map (· ^ 2)).sum
  let wUw ← match dilute, normWL with
    | some dil, some nwl =>
      if dil.specCorrected.isSome then do
        let ni ← nearestIdx nwl dil.wl
        CalcReabsProb fluor em_start em_end ni emBLFl dil
      else .error .unboundLocalErr
    | _, _ => pure ((0 : ℝ), (0 : ℝ))
  let QY := nEmitted / (nTotEmpty - nTotSample)
  let UQY := Real.sqrt (1 / (nTotEmpty - nTotSample) ^ 2 * uNEmitted ^ 2 +
    (QY / (nTotEmpty - nTotSample)) ^ 2 * (uNTotEmpty ^ 2 + uNTotSample ^ 2))
  pure (qyFinal QY UQY wUw.1 wUw.2)

/-- Modelled from the spec (section 8, reabsorption no-op): the same
computation as `CalculateQY_2MM` but with the reabsorption weight `w` and
its uncertainty `Uw` passed explicitly instead of being derived from a
dilute spectrum. -/
def CalculateQY_2MM_explicitW (fluor solvent : PTIData)
    (scat_start scat_end em_start em_end : ℝ) (use_solvent_BL : Bool)
    (w Uw : ℝ) (avglen : ℕ) : Except PyErr (ℝ × ℝ) := do
  let ssSol ← nearestIdx scat_start solvent.wl
  let seSol ← nearestIdx scat_end solvent.wl
  let ssFl ← nearestIdx scat_start fluor.wl
  let seFl ← nearestIdx scat_end fluor.wl
  let esFl ← nearestIdx em_start fluor.wl
  let eeFl ← nearestIdx em_end fluor.wl
  let flCorr ← pyAttr fluor.specCorrected
  let scatBLFl ← CalcStraightLine fluor.wl flCorr ssFl seFl avglen
  let solCorr ← pyAttr solvent.specCorrected
  let scatBLSol ← CalcStraightLine solvent.wl solCorr ssSol seSol avglen
  let emBLFl ← if use_solvent_BL then pure solCorr
    else CalcStraightLine fluor.wl flCorr esFl eeFl avglen
  let nEmitted := (List.zipWith (· - ·)
    (pySlice flCorr esFl eeFl) (pySlice emBLFl esFl eeFl)).sum
  let flUCorr ← pyAttr fluor.uspecCorrected
  let uNEmitted := Real.sqrt ((pySlice flUCorr esFl eeFl).map (· ^ 2)).sum
  let solUCorr ← pyAttr solvent.uspecCorrected
  let nTotEmpty := (List.zipWith (· - ·)
    (pySlice solCorr ssSol seSol) (pySlice scatBLSol ssSol seSol)).sum
  let uNTotEmpty := Real.sqrt ((pySlice solUCorr ssSol seSol).map (· ^ 2)).sum
  let nTotSample := (List.zipWith (· - ·)
    (pySlice flCorr ssFl seFl) (pySlice scatBLFl ssFl seFl)).sum
  let uNTotSample := Real.sqrt ((pySlice flUCorr ssFl seFl).map (· ^ 2)).sum
  let wUw : ℝ × ℝ := (w, Uw)
  let QY := nEmitted / (nTotEmpty - nTotSample)
  let UQY := Real.sqrt (1 / (nTotEmpty - nTotSample) ^ 2 * uNEmitted ^ 2 +
    (QY / (nTotEmpty - nTotSample)) ^ 2 * (uNTotEmpty ^ 2 + uNTotSample ^ 2))
  pure (qyFinal QY UQY wUw.1 wUw.2)

/-- Whether an embedded Python computation returned normally (no
exception, no print-and-return-None exit). -/
def exOk {α : Type} : Except PyErr α → Bool
  | .ok _ => true
  | .error _ => false

/-! ## Helper lemmas about the embedded primitives -/

theorem listAt_ok : ∀ (l : List ℝ) (k : ℕ) (h : k < l.length),
    listAt l k = .ok (l.get ⟨k, h⟩)
  | _ :: _, 0, _ => rfl
  | _ :: l, k + 1, h => listAt_ok l k (Nat.lt_of_succ_lt_succ (by simpa using h))
  | [], _, h => absurd h (by simp)

/-- A Python index `i` into a list of length `n` is valid (raises no
IndexError) iff its wrap-adjusted value lies in `[0, n)`. -/
def pyIdxOk (n : ℕ) (i : ℤ) : Prop :=
  0 ≤ (if i < 0 then i + n else i) ∧ (if i < 0 then i + n else i) < n

theorem pyGet_ok_of (l : List ℝ) (i : ℤ) (h : pyIdxOk l.length i) :
    ∃ x, pyGet l i = .ok x := by
  obtain ⟨h1, h2⟩ := h
  have hlt : (if i < 0 then i + (l.length : ℤ) else i).toNat < l.length := by omega
  refine ⟨l.get ⟨(if i < 0 then i + (l.length : ℤ) else i).toNat, hlt⟩, ?_⟩
  simp only [pyGet]
  rw [if_pos (And.intro h1 h2)]
  exact listAt_ok l _ hlt

theorem pyGet_nat (l : List ℝ) (k : ℕ) (h : k < l.length) :
    pyGet l (k : ℤ) = .ok (l.get ⟨k, h⟩) := by
  have h0 : ¬ ((k : ℤ) < 0) := by omega
  have hc : (0 : ℤ) ≤ (k : ℤ) ∧ (k : ℤ) < (l.length : ℤ) := by omega
  simp only [pyGet]
  rw [if_neg h0, if_pos hc]
  simpa only [Int.toNat_natCast] using listAt_ok l k h

theorem pySlice_nat (l : List ℝ) (a b : ℕ) (ha : a ≤ l.length) (hb : b ≤ l.length) :
    pySlice l (a : ℤ) (b : ℤ) = (l.take b).drop a := by
  have h0 : ¬ ((a : ℤ) < 0) := by omega
  have h1 : ¬ ((b : ℤ) < 0) := by omega
  simp only [pySlice, pySliceIdx, if_neg h0, if_neg h1, Int.toNat_natCast,
    min_eq_left ha, min_eq_left hb]

theorem getD_zipWith (f : ℝ → ℝ → ℝ) : ∀ (as bs : List ℝ) (i : ℕ),
    i < as.length → i < bs.length →
    (List.zipWith f as bs).getD i 0 = f (as.getD i 0) (bs.getD i 0)
  | _ :: _, _ :: _, 0, _, _ => rfl
  | _ :: as, _ :: bs, i + 1, h1, h2 =>
      getD_zipWith f as bs i (by simpa using h1) (by simpa using h2)
  | [], _, _, h1, _ => absurd h1 (by simp)
  | _ :: _, [], _, _, h2 => absurd h2 (by simp)

theorem getD_map (f : ℝ → ℝ) : ∀ (as : List ℝ) (i : ℕ), i < as.length →
    (as.map f).getD i 0 = f (as.getD i 0)
  | _ :: _, 0, _ => rfl
  | _ :: as, i + 1, h => getD_map f as i (by simpa using h)
  | [], _, h => absurd h (by simp)

theorem pySlice_map_range (f : ℕ → ℝ) (N a b : ℕ) (hab : a ≤ b) (hbN : b ≤ N) :
    pySlice ((List.range N).map f) (a : ℤ) (b : ℤ) = (List.range' a (b - a)).map f := by
  rw [pySlice_nat _ a b (by simp; omega) (by simp; omega)]
  apply List.ext_getElem
  · simp; omega
  · intro i h1 h2
    simp only [List.getElem_drop, List.getElem_take, List.getElem_map,
      List.getElem_range, List.getElem_range']
    congr 1
    omega

theorem range'_four (a : ℕ) : List.range' a 4 = [a, a + 1, a + 2, a + 3] := by
  simp [List.range'_succ]

theorem chain_head_le_getLast : ∀ (xs : List ℝ) (x0 : ℝ),
    List.Chain' (· < ·) (x0 :: xs) → x0 ≤ (x0 :: xs).getLast (List.cons_ne_nil x0 xs)
  | [], x0, _ => le_refl x0
  | x1 :: xs, x0, h => by
      rw [List.getLast_cons (List.cons_ne_nil x1 xs)]
      have h01 : x0 < x1 := (List.chain'_cons.mp h).1
      exact le_trans (le_of_lt h01)
        (chain_head_le_getLast xs x1 (List.chain'_cons.mp h).2)

/-- On a strictly increasing axis, the interpolation scan applied to the
axis against itself returns the query point exactly while the query lies
between the current sample and the last sample. -/
theorem interpGo_self (x r : ℝ) : ∀ (xs : List ℝ) (x0 : ℝ),
    List.Chain' (· < ·) (x0 :: xs) → x0 ≤ x →
    x ≤ (x0 :: xs).getLast (List.cons_ne_nil x0 xs) →
    interpGo x r x0 x0 (xs.zip xs) = x
  | [], x0, _, hle, hge => by
      simp only [List.getLast_singleton] at hge
      have hx : x = x0 := le_antisymm hge hle
      simp [interpGo, List.zip, hx]
  | x1 :: xs, x0, hch, hle, hge => by
      rw [List.zip_cons_cons]
      simp only [interpGo]
      by_cases hx1 : x ≤ x1
      · rw [if_pos hx1]
        have h01 : x0 < x1 := (List.chain'_cons.mp hch).1
        have hne : x1 - x0 ≠ 0 := sub_ne_zero.mpr (ne_of_gt h01)
        field_simp
      · rw [if_neg hx1]
        apply interpGo_self x r xs x1 (List.chain'_cons.mp hch).2
          (le_of_lt (not_le.mp hx1))
        rwa [List.getLast_cons (List.cons_ne_nil x1 xs)] at hge

/-- Past the last sample the interpolation scan returns the `right` fill
value. -/
theorem interpGo_gt (x r : ℝ) : ∀ (xs : List ℝ) (x0 y0 : ℝ),
    List.Chain' (· < ·) (x0 :: xs) →
    (x0 :: xs).getLast (List.cons_ne_nil x0 xs) < x →
    interpGo x r x0 y0 (xs.zip xs) = r
  | [], x0, y0, _, hgt => by
      simp only [List.getLast_singleton] at hgt
      simp [interpGo, List.zip, hgt]
  | x1 :: xs, x0, y0, hch, hgt => by
      rw [List.zip_cons_cons]
      simp only [interpGo]
      rw [List.getLast_cons (List.cons_ne_nil x1 xs)] at hgt
      have hx1last : x1 ≤ (x1 :: xs).getLast (List.cons_ne_nil x1 xs) :=
        chain_head_le_getLast xs x1 (List.chain'_cons.mp hch).2
      have hnle : ¬ (x ≤ x1) := not_le.mpr (lt_of_le_of_lt hx1last hgt)
      rw [if_neg hnle]
      exact interpGo_gt x r xs x1 x1 (List.chain'_cons.mp hch).2 hgt

/-- Self-interpolation of a strictly increasing wavelength axis is the
identity on the axis's range. -/
theorem npInterpD_self (x : ℝ) (wl : List ℝ) (hne : wl ≠ [])
    (hch : wl.Chain' (· < ·)) (h1 : wl.headI ≤ x)
    (h2 : x ≤ wl.getLast hne) : npInterpD x wl wl = x := by
  cases wl with
  | nil => exact absurd rfl hne
  | cons w0 ws =>
      simp only [npInterpD, npInterp]
      have hnlt : ¬ (x < w0) := not_lt.mpr (by simpa [List.headI] using h1)
      rw [if_neg hnlt]
      exact interpGo_self x _ ws w0 hch (by simpa [List.headI] using h1) h2

theorem npInterpD_lt (x : ℝ) (w0 : ℝ) (ws : List ℝ) (h : x < w0) :
    npInterpD x (w0 :: ws) (w0 :: ws) = w0 := by
  simp [npInterpD, npInterp, if_pos h, List.headI]

theorem npInterpD_gt (x : ℝ) (wl : List ℝ) (hne : wl ≠ [])
    (hch : wl.Chain' (· < ·)) (h : wl.getLast hne < x) :
    npInterpD x wl wl = wl.getLast hne := by
  cases wl with
  | nil => exact absurd rfl hne
  | cons w0 ws =>
      simp only [npInterpD, npInterp]
      have hw0 : w0 ≤ (w0 :: ws).getLast (List.cons_ne_nil w0 ws) :=
        chain_head_le_getLast ws w0 hch
      have hnlt : ¬ (x < w0) := not_lt.mpr (le_of_lt (lt_of_le_of_lt hw0 h))
      rw [if_neg hnlt]
      have hd : (w0 :: ws).getLastD 0 =
          (w0 :: ws).getLast (List.cons_ne_nil w0 ws) := by
        rw [List.getLastD_eq_getLast?, List.getLast?_eq_getLast _ (List.cons_ne_nil w0 ws)]
        rfl
      rw [hd]
      exact interpGo_gt x _ ws w0 w0 hch h

theorem pyIndex_get : ∀ (wl : List ℝ), wl.Pairwise (· < ·) →
    ∀ (j : ℕ) (hj : j < wl.length), pyIndex wl (wl.get ⟨j, hj⟩) = .ok j
  | [], _, j, hj => absurd hj (by simp)
  | a :: l, _, 0, _ => by simp [pyIndex]
  | a :: l, hp, j + 1, hj => by
      have hjl : j < l.length := by simpa using hj
      have hmem : l.get ⟨j, hjl⟩ ∈ l := List.get_mem l j hjl
      have hne : a ≠ (a :: l).get ⟨j + 1, hj⟩ :=
        ne_of_lt ((List.pairwise_cons.mp hp).1 _ hmem)
      simp only [pyIndex]
      rw [if_neg hne]
      have hcast : (a :: l).get ⟨j + 1, hj⟩ = l.get ⟨j, hjl⟩ := rfl
      rw [hcast, pyIndex_get l (List.pairwise_cons.mp hp).2 j hjl]
      rfl

theorem pyIndex_getLast : ∀ (wl : List ℝ) (hne : wl ≠ []), wl.Pairwise (· < ·) →
    pyIndex wl (wl.getLast hne) = .ok (wl.length - 1)
  | [], hne, _ => absurd rfl hne
  | [a], _, _ => by simp [pyIndex, List.getLast_singleton]
  | a :: b :: l, _, hp => by
      rw [List.getLast_cons (List.cons_ne_nil b l)]
      have hm : (b :: l).getLast (List.cons_ne_nil b l) ∈ b :: l :=
        List.getLast_mem (List.cons_ne_nil b l)
      have hne2 : a ≠ (b :: l).getLast (List.cons_ne_nil b l) :=
        ne_of_lt ((List.pairwise_cons.mp hp).1 _ hm)
      have step : pyIndex (a :: b :: l) ((b :: l).getLast (List.cons_ne_nil b l)) =
          (pyIndex (b :: l) ((b :: l).getLast (List.cons_ne_nil b l))).map (· + 1) := by
        simp only [pyIndex]
        rw [if_neg hne2]
      rw [step,
        pyIndex_getLast (b :: l) (List.cons_ne_nil b l) (List.pairwise_cons.mp hp).2]
      simp [List.length, Except.map]

theorem pyIndex_not_mem : ∀ (l : List ℝ) (v : ℝ), v ∉ l →
    pyIndex l v = .error .valueErr
  | [], _, _ => rfl
  | a :: l, v, h => by
      have h1 : a ≠ v := fun he => h (he ▸ List.mem_cons_self a l)
      simp only [pyIndex]
      rw [if_neg h1, pyIndex_not_mem l v (fun hm => h (List.mem_cons_of_mem a hm))]
      rfl

theorem headI_le_get (wl : List ℝ) (hs : wl.Sorted (· < ·)) (j : ℕ)
    (hj : j < wl.length) : wl.headI ≤ wl.get ⟨j, hj⟩ := by
  cases wl with
  | nil => exact absurd hj (by simp)
  | cons a l =>
      have h0 : (0 : ℕ) < (a :: l).length := by simp
      have hmono : (a :: l).get ⟨0, h0⟩ ≤ (a :: l).get ⟨j, hj⟩ :=
        hs.get_strictMono.monotone (by simp)
      simpa [List.headI] using hmono

theorem get_le_getLast (wl : List ℝ) (hne : wl ≠ []) (hs : wl.Sorted (· < ·))
    (j : ℕ) (hj : j < wl.length) : wl.get ⟨j, hj⟩ ≤ wl.getLast hne := by
  have hlast : wl.getLast hne = wl.get ⟨wl.length - 1, by
      cases wl with
      | nil => exact absurd rfl hne
      | cons a l => simp⟩ := by
    rw [List.getLast_eq_getElem]
    rfl
  rw [hlast]
  exact hs.get_strictMono.monotone (by simp; omega)

/-- A value strictly between two adjacent samples of a strictly sorted
list is not an element of the list. -/
theorem between_not_mem (wl : List ℝ) (hs : wl.Sorted (· < ·)) (j : ℕ)
    (hj : j + 1 < wl.length) (t : ℝ)
    (h1 : wl.get ⟨j, by omega⟩ < t) (h2 : t < wl.get ⟨j + 1, hj⟩) : t ∉ wl := by
  intro hm
  obtain ⟨⟨k, hk⟩, hkt⟩ := List.mem_iff_get.mp hm
  by_cases hkj : k ≤ j
  · have hle : wl.get ⟨k, hk⟩ ≤ wl.get ⟨j, by omega⟩ :=
      hs.get_strictMono.monotone (by simp [hkj])
    rw [hkt] at hle
    linarith
  · push_neg at hkj
    have hle : wl.get ⟨j + 1, hj⟩ ≤ wl.get ⟨k, hk⟩ :=
      hs.get_strictMono.monotone (by simp; omega)
    rw [hkt] at hle
    linarith

/-! ## Claim theorems -/

/-- C1: the spec says `ApplyCorrFileToRaw` with `correctionKey = "default"`
(no curve) and an all-zero background returns the raw intensity and raw
uncertainty unchanged.  The code instead crashes: the default branch runs
`CorrVals = [1 for i in len(rawspec)]`, which iterates over the integer
`len(rawspec)` and raises `TypeError`, so no corrected spectrum is ever
produced.  Evaluated here at a concrete raw Trace spectrum with an
all-zero background. -/
theorem claim_C1_default_key_raises_typeerror :
    ApplyCorrFileToRaw (fun _ => { wl := [], runType := .unknown, fileType := .unknown })
      { wl := [400, 500], runType := .emission, fileType := .trace,
        trace := some [10, 20], utrace := some [3, 4] }
      "default" [0, 0] none none = .error .typeErr := by
  simp [ApplyCorrFileToRaw, getRawArrays, resolveCorrVals, FileType.val, pyAttr,
    Bind.bind, Except.bind, Pure.pure, Except.pure]

/-- C4: applying a correction curve whose run type differs from the
spectrum's run type makes `ApplyCorrFileToRaw` fail with the run-type
mismatch error (print-and-return at line 77), and the spectrum's corrected
fields are left unmutated (`RegisterCorrSpec` is only reached on the
success path). -/
theorem claim_C4_runtype_mismatch_rejected (getCorr : String → PTIData)
    (data : PTIData) (key : String) (bckgnd : List ℝ) (extracorr : Option PTIData)
    (factor : Option ℝ) (ru : List ℝ × List ℝ)
    (hraw : getRawArrays data = .ok ru)
    (hkey : key ≠ "default") (hmem : key ∈ corrKeys)
    (hmis : data.runType.val ≠ (getCorr key).runType.val) :
    ApplyCorrFileToRaw getCorr data key bckgnd extracorr factor =
      .error .runTypeMismatch ∧
    applyCorrAndRegister getCorr data key bckgnd extracorr factor = data := by
  have h1 : resolveCorrVals getCorr data key = .error .runTypeMismatch := by
    simp [resolveCorrVals, hkey, GetCorrData, hmem, hmis]
  have h2 : ApplyCorrFileToRaw getCorr data key bckgnd extracorr factor =
      .error .runTypeMismatch := by
    simp [ApplyCorrFileToRaw, hraw, h1, Bind.bind, Except.bind]
  exact ⟨h2, by simp [applyCorrAndRegister, h2]⟩

/-- C4 witness: a concrete Emission-type Trace spectrum corrected with the
Excitation-type curve under the key `"excorr"`. -/
theorem claim_C4_runtype_mismatch_rejected_witness :
    ApplyCorrFileToRaw
      (fun _ => { wl := [400, 500], runType := .excitation, fileType := .group,
                  trace := some [1, 2] })
      { wl := [400, 500], runType := .emission, fileType := .trace,
        trace := some [10, 20], utrace := some [3, 4] }
      "excorr" [0, 0] none none = .error .runTypeMismatch ∧
    applyCorrAndRegister
      (fun _ => { wl := [400, 500], runType := .excitation, fileType := .group,
                  trace := some [1, 2] })
      { wl := [400, 500], runType := .emission, fileType := .trace,
        trace := some [10, 20], utrace := some [3, 4] }
      "excorr" [0, 0] none none =
      { wl := [400, 500], runType := .emission, fileType := .trace,
        trace := some [10, 20], utrace := some [3, 4] } :=
  claim_C4_runtype_mismatch_rejected _ _ _ _ _ _ ([10, 20], [3, 4])
    (by simp [getRawArrays, FileType.val, pyAttr, Bind.bind, Except.bind,
      Pure.pure, Except.pure])
    (by simp) (by simp [corrKeys]) (by simp [RunType.val])

theorem exOk_ok {α : Type} (x : Except PyErr α) (h : exOk x = true) :
    ∃ a, x = .ok a := by
  cases x with
  | ok a => exact ⟨a, rfl⟩
  | error e => simp [exOk] at h

/-- Identical fluor and solvent record on an 11-sample wavelength axis
with constant corrected spectrum, used by the C2 counterexample and
witness: with identical records and identical scatter windows,
`N_Tot_empty` and `N_Tot_sample` are the same sum, so the QY denominator
`N_Tot_empty - N_Tot_sample` is exactly zero. -/
def qyFix : PTIData :=
  { wl := [0, 1, 2, 3, 4, 5, 6, 7, 8, 9, 10], runType := .emission,
    fileType := .session,
    specCorrected := some [1, 1, 1, 1, 1, 1, 1, 1, 1, 1, 1],
    uspecCorrected := some [1, 1, 1, 1, 1, 1, 1, 1, 1, 1, 1] }

/-- C2 (counterexample): the claim says that when
`N_totEmpty == N_totSample` the computation raises `DegenerateQYError`.
With identical fluor and solvent spectra (so both scatter-window sums are
the same sum, here both `0`) `CalculateQY_2MM` raises nothing and returns
a value: the division is a numpy float division, which silently yields
`inf`/`nan` with only a runtime warning. -/
theorem claim_C2_cex_returns_despite_degenerate_denominator :
    exOk (CalculateQY_2MM qyFix qyFix 4 5 5 6 false none none 4) = true := by
  norm_num [CalculateQY_2MM, qyFix, nearestIdx, npInterpD, npInterp, interpGo,
    pyIndex, pyAttr, pyGet, listAt, pySlice, pySliceIdx, npMean, int_toNat_lit,
    CalcStraightLine, qyFinal, Bind.bind, Except.bind, Pure.pure, Except.pure,
    Except.map, List.zip, exOk]

/-- C2 (amended): `CalculateQY_2MM` contains no degeneracy check at all:
whenever its index lookups, corrected-field reads and baseline fits
succeed and `dilute = None`, it returns a `(QY, UQY)` value regardless of
whether `N_totEmpty == N_totSample` — a zero denominator goes through numpy
float division and produces `inf`/`nan` silently instead of raising a
`DegenerateQYError`. -/
theorem claim_C2_amended_no_degeneracy_check (fluor solvent : PTIData)
    (ss se es ee : ℝ) (L : ℕ) (i1 i2 i3 i4 i5 i6 : ℕ)
    (flC solC flU solU : List ℝ) (nwl : Option ℝ)
    (h1 : nearestIdx ss solvent.wl = .ok i1)
    (h2 : nearestIdx se solvent.wl = .ok i2)
    (h3 : nearestIdx ss fluor.wl = .ok i3)
    (h4 : nearestIdx se fluor.wl = .ok i4)
    (h5 : nearestIdx es fluor.wl = .ok i5)
    (h6 : nearestIdx ee fluor.wl = .ok i6)
    (hfc : fluor.specCorrected = some flC)
    (hsc : solvent.specCorrected = some solC)
    (hfu : fluor.uspecCorrected = some flU)
    (hsu : solvent.uspecCorrected = some solU)
    (hb1 : exOk (CalcStraightLine fluor.wl flC i3 i4 L) = true)
    (hb2 : exOk (CalcStraightLine solvent.wl solC i1 i2 L) = true)
    (hb3 : exOk (CalcStraightLine fluor.wl flC i5 i6 L) = true) :
    exOk (CalculateQY_2MM fluor solvent ss se es ee false none nwl L) = true := by
  obtain ⟨b1, e1⟩ := exOk_ok _ hb1
  obtain ⟨b2, e2⟩ := exOk_ok _ hb2
  obtain ⟨b3, e3⟩ := exOk_ok _ hb3
  cases nwl <;>
  simp [CalculateQY_2MM, h1, h2, h3, h4, h5, h6, hfc, hsc, hfu, hsu, e1, e2, e3,
    pyAttr, Bind.bind, Except.bind, Pure.pure, Except.pure, exOk]

/-- C2 witness: the amended statement at the degenerate concrete input
(identical fluor/solvent records, zero QY denominator). -/
theorem claim_C2_amended_no_degeneracy_check_witness :
    exOk (CalculateQY_2MM qyFix qyFix 4 5 5 6 false none none 4) = true :=
  claim_C2_amended_no_degeneracy_check qyFix qyFix 4 5 5 6 4 4 5 4 5 5 6
    [1, 1, 1, 1, 1, 1, 1, 1, 1, 1, 1] [1, 1, 1, 1, 1, 1, 1, 1, 1, 1, 1]
    [1, 1, 1, 1, 1, 1, 1, 1, 1, 1, 1] [1, 1, 1, 1, 1, 1, 1, 1, 1, 1, 1] none
    (by norm_num [nearestIdx, qyFix, npInterpD, npInterp, interpGo, pyIndex,
      Except.map, List.zip])
    (by norm_num [nearestIdx, qyFix, npInterpD, npInterp, interpGo, pyIndex,
      Except.map, List.zip])
    (by norm_num [nearestIdx, qyFix, npInterpD, npInterp, interpGo, pyIndex,
      Except.map, List.zip])
    (by norm_num [nearestIdx, qyFix, npInterpD, npInterp, interpGo, pyIndex,
      Except.map, List.zip])
    (by norm_num [nearestIdx, qyFix, npInterpD, npInterp, interpGo, pyIndex,
      Except.map, List.zip])
    (by norm_num [nearestIdx, qyFix, npInterpD, npInterp, interpGo, pyIndex,
      Except.map, List.zip])
    rfl rfl rfl rfl
    (by norm_num [CalcStraightLine, qyFix, pyGet, listAt, pySlice, pySliceIdx,
      npMean, int_toNat_lit, Bind.bind, Except.bind, Pure.pure, Except.pure, exOk])
    (by norm_num [CalcStraightLine, qyFix, pyGet, listAt, pySlice, pySliceIdx,
      npMean, int_toNat_lit, Bind.bind, Except.bind, Pure.pure, Except.pure, exOk])
    (by norm_num [CalcStraightLine, qyFix, pyGet, listAt, pySlice, pySliceIdx,
      npMean, int_toNat_lit, Bind.bind, Except.bind, Pure.pure, Except.pure, exOk])

/-- C3 (counterexample): the claim says that for intensity exactly
`2*wl + 3`, `CalcStraightLine` reproduces that same line at every index.
On the axis `0..9` with window `startidx = 4`, `endidx = 5`, `avglen = 4`
the code computes gradient `2` but intercept
`mean(spec[5:9]) - 2*WL[5] = 16 - 10 = 6`, returning the line `2*wl + 6`,
offset from the data line `2*wl + 3` at every index. -/
theorem claim_C3_cex_line_not_reproduced :
    CalcStraightLine [0, 1, 2, 3, 4, 5, 6, 7, 8, 9]
      [3, 5, 7, 9, 11, 13, 15, 17, 19, 21] 4 5 4 =
      .ok [6, 8, 10, 12, 14, 16, 18, 20, 22, 24] ∧
    ([6, 8, 10, 12, 14, 16, 18, 20, 22, 24] : List ℝ) ≠
      [3, 5, 7, 9, 11, 13, 15, 17, 19, 21] := by
  constructor
  · norm_num [CalcStraightLine, pyGet, listAt, pySlice, pySliceIdx, npMean,
      int_toNat_lit, Bind.bind, Except.bind, Pure.pure, Except.pure]
  · norm_num

/-- C3 (amended): on a uniformly spaced axis `wl i = w0 + d*i` (`d > 0`)
with the default window length 4 and a valid interior window
(`4 ≤ startIndex ≤ endIndex`, `endIndex + 4 < N`), `CalcStraightLine` on
the exact line `2*wl + 3` returns the straight line with the correct
gradient `2` but with intercept offset by `gradient * d * (4-1)/2 = 3d`:
the value at every index is `2*wl[i] + 3 + 3d`, not `2*wl[i] + 3`.  (The
offset comes from pairing the mean of the window after `endIndex`, whose
mean wavelength is `wl[endIndex] + 3d/2`, with the single wavelength
`wl[endIndex]`.) -/
theorem claim_C3_amended_offset_line (w0 d : ℝ) (hd : 0 < d) (N s e : ℕ)
    (hs : 4 ≤ s) (hse : s ≤ e) (he : e + 4 < N) :
    CalcStraightLine ((List.range N).map fun i : ℕ => w0 + d * i)
      ((List.range N).map fun i : ℕ => 2 * (w0 + d * i) + 3) (s : ℤ) (e : ℤ) 4 =
      .ok (((List.range N).map fun i : ℕ => w0 + d * i).map
        fun x => x * 2 + (3 + 3 * d)) := by
  have hlenW : ((List.range N).map fun i : ℕ => w0 + d * i).length = N := by simp
  have c2 : ((s - 2 : ℕ) : ℝ) = (s : ℝ) - 2 := by
    rw [Nat.cast_sub (by omega)]; norm_num
  have c4 : ((s - 4 : ℕ) : ℝ) = (s : ℝ) - 4 := by
    rw [Nat.cast_sub (by omega)]; norm_num
  have g1 : pyGet ((List.range N).map fun i : ℕ => w0 + d * i)
      ((e : ℤ) + ((4 / 2 : ℕ) : ℤ)) = .ok (w0 + d * ((e : ℝ) + 2)) := by
    have h : (e : ℤ) + ((4 / 2 : ℕ) : ℤ) = ((e + 2 : ℕ) : ℤ) := by norm_num
    rw [h, pyGet_nat _ _ (show e + 2 < _ by rw [hlenW]; omega)]
    congr 1
    simp only [List.get_eq_getElem, List.getElem_map, List.getElem_range]
    push_cast
    ring
  have g2 : pyGet ((List.range N).map fun i : ℕ => w0 + d * i)
      ((s : ℤ) - ((4 / 2 : ℕ) : ℤ)) = .ok (w0 + d * ((s : ℝ) - 2)) := by
    have h : (s : ℤ) - ((4 / 2 : ℕ) : ℤ) = ((s - 2 : ℕ) : ℤ) := by omega
    rw [h, pyGet_nat _ _ (show s - 2 < _ by rw [hlenW]; omega)]
    congr 1
    simp only [List.get_eq_getElem, List.getElem_map, List.getElem_range]
    rw [c2]
  have g3 : pyGet ((List.range N).map fun i : ℕ => w0 + d * i) (e : ℤ) =
      .ok (w0 + d * (e : ℝ)) := by
    rw [pyGet_nat _ _ (show e < _ by rw [hlenW]; omega)]
    congr 1
    simp only [List.get_eq_getElem, List.getElem_map, List.getElem_range]
  have s1 : pySlice ((List.range N).map fun i : ℕ => 2 * (w0 + d * i) + 3)
      (e : ℤ) ((e : ℤ) + ((4 : ℕ) : ℤ)) =
      [2 * (w0 + d * (e : ℝ)) + 3, 2 * (w0 + d * ((e : ℝ) + 1)) + 3,
       2 * (w0 + d * ((e : ℝ) + 2)) + 3, 2 * (w0 + d * ((e : ℝ) + 3)) + 3] := by
    have h : (e : ℤ) + ((4 : ℕ) : ℤ) = ((e + 4 : ℕ) : ℤ) := by omega
    rw [h, pySlice_map_range _ N e (e + 4) (by omega) (by omega)]
    have h4 : e + 4 - e = 4 := by omega
    rw [h4, range'_four]
    simp only [List.map_cons, List.map_nil]
    push_cast
    norm_num
  have s2 : pySlice ((List.range N).map fun i : ℕ => 2 * (w0 + d * i) + 3)
      ((s : ℤ) - ((4 : ℕ) : ℤ)) (s : ℤ) =
      [2 * (w0 + d * ((s : ℝ) - 4)) + 3, 2 * (w0 + d * ((s : ℝ) - 3)) + 3,
       2 * (w0 + d * ((s : ℝ) - 2)) + 3, 2 * (w0 + d * ((s : ℝ) - 1)) + 3] := by
    have h : (s : ℤ) - ((4 : ℕ) : ℤ) = ((s - 4 : ℕ) : ℤ) := by omega
    rw [h, pySlice_map_range _ N (s - 4) s (by omega) (by omega)]
    have h4 : s - (s - 4) = 4 := by omega
    rw [h4, range'_four]
    simp only [List.map_cons, List.map_nil]
    have e1 : ((s - 4 : ℕ) : ℝ) = (s : ℝ) - 4 := c4
    have e2 : ((s - 4 + 1 : ℕ) : ℝ) = (s : ℝ) - 3 := by
      rw [Nat.cast_add, c4, Nat.cast_one]; ring
    have e3 : ((s - 4 + 2 : ℕ) : ℝ) = (s : ℝ) - 2 := by
      rw [Nat.cast_add, c4, Nat.cast_ofNat]; ring
    have e4 : ((s - 4 + 3 : ℕ) : ℝ) = (s : ℝ) - 1 := by
      rw [Nat.cast_add, c4, Nat.cast_ofNat]; ring
    rw [e1, e2, e3, e4]
  have hseR : (s : ℝ) ≤ (e : ℝ) := by exact_mod_cast hse
  have hden : (w0 + d * ((e : ℝ) + 2)) - (w0 + d * ((s : ℝ) - 2)) ≠ 0 := by
    have h : (w0 + d * ((e : ℝ) + 2)) - (w0 + d * ((s : ℝ) - 2)) =
        d * ((e : ℝ) - (s : ℝ) + 4) := by ring
    rw [h]
    exact mul_ne_zero (ne_of_gt hd) (by linarith)
  simp only [CalcStraightLine, g1, g2, g3, s1, s2, Bind.bind, Except.bind,
    Pure.pure, Except.pure]
  congr 1
  apply List.map_congr_left
  intro x _
  have hm : npMean [2 * (w0 + d * (e : ℝ)) + 3, 2 * (w0 + d * ((e : ℝ) + 1)) + 3,
      2 * (w0 + d * ((e : ℝ) + 2)) + 3, 2 * (w0 + d * ((e : ℝ) + 3)) + 3] =
      2 * w0 + 2 * d * (e : ℝ) + 3 * d + 3 := by
    simp [npMean]
    ring
  have hm2 : npMean [2 * (w0 + d * ((s : ℝ) - 4)) + 3,
      2 * (w0 + d * ((s : ℝ) - 3)) + 3, 2 * (w0 + d * ((s : ℝ) - 2)) + 3,
      2 * (w0 + d * ((s : ℝ) - 1)) + 3] =
      2 * w0 + 2 * d * (s : ℝ) - 5 * d + 3 := by
    simp [npMean]
    ring
  rw [hm, hm2]
  have hG : (2 * w0 + 2 * d * (e : ℝ) + 3 * d + 3 -
      (2 * w0 + 2 * d * (s : ℝ) - 5 * d + 3)) /
      (w0 + d * ((e : ℝ) + 2) - (w0 + d * ((s : ℝ) - 2))) = 2 := by
    rw [div_eq_iff hden]; ring
  rw [hG]
  ring

/-- C3 witness: the amended statement at `w0 = 0`, `d = 1`, `N = 10`,
window `4..5`. -/
theorem claim_C3_amended_offset_line_witness :
    CalcStraightLine ((List.range 10).map fun i : ℕ => (0 : ℝ) + 1 * i)
      ((List.range 10).map fun i : ℕ => 2 * ((0 : ℝ) + 1 * i) + 3) (4 : ℤ) (5 : ℤ) 4 =
      .ok (((List.range 10).map fun i : ℕ => (0 : ℝ) + 1 * i).map
        fun x => x * 2 + (3 + 3 * 1)) :=
  claim_C3_amended_offset_line 0 1 (by norm_num) 10 4 5 (by norm_num)
    (by norm_num) (by norm_num)

/-- C9 (counterexample): the claim says every call of `CalcStraightLine`
with `startIndex - windowLength < 0` fails with `BaselineRangeError`.  At
`startidx = 1`, `avglen = 4` (so `1 - 4 < 0`) on ten samples the code
raises nothing and returns a line: the slice `spec[-3:1]` silently becomes
empty (numpy then yields a `nan` mean with only a warning) and the scalar
access `WL[1-2] = WL[-1]` silently wraps to the last sample. -/
theorem claim_C9_cex_no_range_error :
    exOk (CalcStraightLine [0, 1, 2, 3, 4, 5, 6, 7, 8, 9]
      [3, 5, 7, 9, 11, 13, 15, 17, 19, 21] 1 5 4) = true := by
  norm_num [CalcStraightLine, pyGet, listAt, pySlice, pySliceIdx, npMean,
    int_toNat_lit, Bind.bind, Except.bind, Pure.pure, Except.pure, exOk]

/-- C9 (amended): `CalcStraightLine` performs no window-bounds check and
never raises a `BaselineRangeError`.  Whenever its three scalar index
accesses (`endidx + avglen//2`, `startidx - avglen//2`, `endidx`) are
valid Python indices (wrap-adjusted into `[0, N)`), it returns a line —
even when `startIndex - windowLength < 0` or
`endIndex + windowLength >= N`, in which case the averaging slices
silently truncate or wrap around Python-style; an `IndexError` occurs only
when one of the three scalar accesses is outside `[-N, N)`. -/
theorem claim_C9_amended_no_bounds_check (WL spec : List ℝ)
    (startidx endidx : ℤ) (avglen : ℕ)
    (h1 : pyIdxOk WL.length (endidx + (avglen / 2 : ℕ)))
    (h2 : pyIdxOk WL.length (startidx - (avglen / 2 : ℕ)))
    (h3 : pyIdxOk WL.length endidx) :
    exOk (CalcStraightLine WL spec startidx endidx avglen) = true := by
  obtain ⟨x1, e1⟩ := pyGet_ok_of WL _ h1
  obtain ⟨x2, e2⟩ := pyGet_ok_of WL _ h2
  obtain ⟨x3, e3⟩ := pyGet_ok_of WL _ h3
  simp only [CalcStraightLine, e1, e2, e3, Bind.bind, Except.bind, Pure.pure,
    Except.pure, exOk]

/-- C9 witness: a concrete window violating the claimed precondition
(`startIndex - windowLength = 1 - 4 < 0`) on which the baseline fit still
returns normally. -/
theorem claim_C9_amended_no_bounds_check_witness :
    ((1 : ℤ) - 4 < 0) ∧
    exOk (CalcStraightLine [0, 1, 2, 3, 4, 5, 6, 7, 8, 9]
      [3, 5, 7, 9, 11, 13, 15, 17, 19, 21] 1 5 4) = true :=
  ⟨by norm_num,
   claim_C9_amended_no_bounds_check _ _ 1 5 4 (by norm_num [pyIdxOk])
     (by norm_num [pyIdxOk]) (by norm_num [pyIdxOk])⟩

/-- C5: when a correction curve is applied, `ApplyCorrFileToRaw` resolves
the curve value at each spectrum wavelength by `np.interp` over the
curve's `(WL, Trace)` samples with fill value `0` on both sides, and the
corrected intensity at index `i` is `(raw - background) * curveValue`
with that interpolated value; in particular for the curve `[0, 1, 0]` at
`[400, 500, 600]` the interpolation is exactly `1/2` at wavelength `450`
and `0` at the out-of-domain wavelength `350`. -/
theorem claim_C5_interpolated_curve_values (getCorr : String → PTIData)
    (data : PTIData) (key : String) (bckgnd : List ℝ) (ru : List ℝ × List ℝ)
    (ctr : List ℝ) (i : ℕ)
    (hraw : getRawArrays data = .ok ru)
    (hkey : key ≠ "default") (hmem : key ∈ corrKeys)
    (hmatch : data.runType.val = (getCorr key).runType.val)
    (htr : (getCorr key).trace = some ctr)
    (hlb : bckgnd.length = ru.1.length)
    (hlw : data.wl.length = ru.1.length)
    (hi : i < ru.1.length) :
    ∃ c u : List ℝ,
      ApplyCorrFileToRaw getCorr data key bckgnd none none = .ok (c, u) ∧
      c.getD i 0 = (ru.1.getD i 0 - bckgnd.getD i 0) *
        npInterp (data.wl.getD i 0) (getCorr key).wl ctr 0 0 ∧
      npInterp 450 [400, 500, 600] [0, 1, 0] 0 0 = 1 / 2 ∧
      npInterp 350 [400, 500, 600] [0, 1, 0] 0 0 = 0 := by
  have hcv : resolveCorrVals getCorr data key =
      .ok (data.wl.map fun x => npInterp x (getCorr key).wl ctr 0 0) := by
    simp [resolveCorrVals, hkey, GetCorrData, hmem, hmatch, htr, pyAttr,
      Bind.bind, Except.bind, Pure.pure, Except.pure]
  refine ⟨List.zipWith (· * ·) (List.zipWith (· - ·) ru.1 bckgnd)
      (data.wl.map fun x => npInterp x (getCorr key).wl ctr 0 0),
    List.zipWith (· * ·)
      (List.zipWith (fun a b => Real.sqrt (a ^ 2 + b ^ 2)) ru.2 (bckgnd.map Real.sqrt))
      (data.wl.map fun x => npInterp x (getCorr key).wl ctr 0 0),
    ?_, ?_, ?_, ?_⟩
  · simp [ApplyCorrFileToRaw, hraw, hcv, Bind.bind, Except.bind, Pure.pure, Except.pure]
  · have lz : (List.zipWith (· - ·) ru.1 bckgnd).length = ru.1.length := by
      simp [hlb]
    have lm : (data.wl.map fun x => npInterp x (getCorr key).wl ctr 0 0).length =
        ru.1.length := by simp [hlw]
    rw [getD_zipWith _ _ _ i (by omega) (by omega),
      getD_zipWith _ _ _ i (by omega) (by omega),
      getD_map _ _ i (by omega)]
  · norm_num [npInterp, interpGo, List.zip]
  · norm_num [npInterp, interpGo, List.zip]

/-- Concrete raw Trace spectrum used by the C5 and C6 witnesses. -/
def specFix : PTIData :=
  { wl := [350, 450], runType := .emission, fileType := .trace,
    trace := some [10, 20], utrace := some [4, 9] }

/-- Concrete correction curve (values `[0, 1, 0]` at `[400, 500, 600]`)
used by the C5 and C6 witnesses. -/
def curveFix : PTIData :=
  { wl := [400, 500, 600], runType := .emission, fileType := .group,
    trace := some [0, 1, 0] }

/-- C5 witness: the correction applied at a concrete two-sample spectrum
with wavelengths 350 and 450 under the curve `[0,1,0]` at
`[400,500,600]`. -/
theorem claim_C5_interpolated_curve_values_witness :
    ∃ c u : List ℝ,
      ApplyCorrFileToRaw (fun _ => curveFix) specFix "emcorri" [1, 2] none none =
        .ok (c, u) ∧
      c.getD 1 0 = (List.getD [10, 20] 1 0 - List.getD [1, 2] 1 0) *
        npInterp (List.getD [350, 450] 1 0) ((fun _ : String => curveFix) "emcorri").wl
          [0, 1, 0] 0 0 ∧
      npInterp 450 [400, 500, 600] [0, 1, 0] 0 0 = 1 / 2 ∧
      npInterp 350 [400, 500, 600] [0, 1, 0] 0 0 = 0 :=
  claim_C5_interpolated_curve_values (fun _ => curveFix) specFix "emcorri" [1, 2]
    ([10, 20], [4, 9]) [0, 1, 0] 1
    (by simp [specFix, getRawArrays, FileType.val, pyAttr, Bind.bind, Except.bind,
      Pure.pure, Except.pure])
    (by decide) (by decide) (by rfl) (by rfl) (by rfl) (by rfl) (by norm_num)

/-- C6: when a correction curve of matching run type is applied with a
background list, the corrected uncertainty at each index equals
`sqrt(rawUncertainty² + backgroundUncertainty²) * curveValue` with
`backgroundUncertainty = sqrt(background)` and `curveValue` the
interpolated curve response at that wavelength. -/
theorem claim_C6_uncertainty_propagation (getCorr : String → PTIData)
    (data : PTIData) (key : String) (bckgnd : List ℝ) (ru : List ℝ × List ℝ)
    (ctr : List ℝ) (i : ℕ)
    (hraw : getRawArrays data = .ok ru)
    (hkey : key ≠ "default") (hmem : key ∈ corrKeys)
    (hmatch : data.runType.val = (getCorr key).runType.val)
    (htr : (getCorr key).trace = some ctr)
    (hlb : bckgnd.length = ru.1.length)
    (hlw : data.wl.length = ru.1.length)
    (hlu : ru.2.length = ru.1.length)
    (hi : i < ru.1.length) :
    ∃ c u : List ℝ,
      ApplyCorrFileToRaw getCorr data key bckgnd none none = .ok (c, u) ∧
      u.getD i 0 = Real.sqrt ((ru.2.getD i 0) ^ 2 + Real.sqrt (bckgnd.getD i 0) ^ 2) *
        npInterp (data.wl.getD i 0) (getCorr key).wl ctr 0 0 := by
  have hcv : resolveCorrVals getCorr data key =
      .ok (data.wl.map fun x => npInterp x (getCorr key).wl ctr 0 0) := by
    simp [resolveCorrVals, hkey, GetCorrData, hmem, hmatch, htr, pyAttr,
      Bind.bind, Except.bind, Pure.pure, Except.pure]
  refine ⟨List.zipWith (· * ·) (List.zipWith (· - ·) ru.1 bckgnd)
      (data.wl.map fun x => npInterp x (getCorr key).wl ctr 0 0),
    List.zipWith (· * ·)
      (List.zipWith (fun a b => Real.sqrt (a ^ 2 + b ^ 2)) ru.2 (bckgnd.map Real.sqrt))
      (data.wl.map fun x => npInterp x (getCorr key).wl ctr 0 0),
    ?_, ?_⟩
  · simp [ApplyCorrFileToRaw, hraw, hcv, Bind.bind, Except.bind, Pure.pure, Except.pure]
  · have lz : (List.zipWith (fun a b => Real.sqrt (a ^ 2 + b ^ 2)) ru.2
        (bckgnd.map Real.sqrt)).length = ru.1.length := by simp [hlb, hlu]
    have lm : (data.wl.map fun x => npInterp x (getCorr key).wl ctr 0 0).length =
        ru.1.length := by simp [hlw]
    have lb2 : (bckgnd.map Real.sqrt).length = ru.1.length := by simp [hlb]
    rw [getD_zipWith _ _ _ i (by omega) (by omega),
      getD_zipWith _ _ _ i (by omega) (by omega),
      getD_map _ _ i (by omega), getD_map _ _ i (by omega)]

/-- C6 witness: the propagated uncertainty at index 1 of the concrete
two-sample spectrum. -/
theorem claim_C6_uncertainty_propagation_witness :
    ∃ c u : List ℝ,
      ApplyCorrFileToRaw (fun _ => curveFix) specFix "emcorri" [1, 2] none none =
        .ok (c, u) ∧
      u.getD 1 0 = Real.sqrt ((List.getD [4, 9] 1 0) ^ 2 +
          Real.sqrt (List.getD [1, 2] 1 0) ^ 2) *
        npInterp (List.getD [350, 450] 1 0) ((fun _ : String => curveFix) "emcorri").wl
          [0, 1, 0] 0 0 :=
  claim_C6_uncertainty_propagation (fun _ => curveFix) specFix "emcorri" [1, 2]
    ([10, 20], [4, 9]) [0, 1, 0] 1
    (by simp [specFix, getRawArrays, FileType.val, pyAttr, Bind.bind, Except.bind,
      Pure.pure, Except.pure])
    (by decide) (by decide) (by rfl) (by rfl) (by rfl) (by rfl) (by rfl) (by norm_num)

/-- C7: `CalculateQY_2MM` called with `dilute = None` takes the
`w = Uw = 0` branch and returns exactly the output of the same
computation with `w = 0, Uw = 0` passed explicitly; and with `w = 0` the
reabsorption folding `QY_final = QY_raw / (1 - w + w*QY_raw)` leaves
`QY_final = QY_raw`. -/
theorem claim_C7_reabsorption_noop (fluor solvent : PTIData) (ss se es ee : ℝ)
    (ub : Bool) (normWL : Option ℝ) (L : ℕ) :
    CalculateQY_2MM fluor solvent ss se es ee ub none normWL L =
      CalculateQY_2MM_explicitW fluor solvent ss se es ee ub 0 0 L ∧
    ∀ QY UQY : ℝ, (qyFinal QY UQY 0 0).1 = QY := by
  constructor
  · cases normWL <;> rfl
  · intro QY UQY
    simp [qyFinal]

/-- C8: the spec says both `integDilute` and its uncertainty
`Uinteg_dilute` are computed over the emission window resolved on the
dilute spectrum's own wavelength axis.  Source line 266 instead slices the
dilute corrected spectrum with the sphere-axis indices.  At the input
below the sphere window is `[0:2]` and the dilute window is `[0:1]`; the
dilute corrected spectrum is `[3, 4, 5]` with normalization value `5`, so
the dilute-axis `Uinteg_dilute` would be `sqrt((3/5)²) = 3/5` giving
`Uw = sqrt(74/9)`, while the code computes `sqrt((3/5)² + (4/5)²) = 1`
giving `Uw = sqrt(1450/81)`; the two final uncertainties differ. -/
theorem claim_C8_uinteg_dilute_uses_sphere_window :
    CalcReabsProb
      { wl := [0, 1, 2], runType := .emission, fileType := .session,
        specCorrected := some [4, 6, 10] }
      0 2 2 [1, 2, 5]
      { wl := [0, 2, 4], runType := .emission, fileType := .session,
        specCorrected := some [3, 4, 5] } =
      .ok (-(4 / 3), Real.sqrt (1450 / 81)) ∧
    Real.sqrt (1450 / 81) ≠ Real.sqrt (74 / 9) := by
  constructor
  · norm_num [CalcReabsProb, nearestIdx, npInterpD, npInterp, interpGo, pyIndex,
      pyAttr, pyGet, listAt, pySlice, pySliceIdx, Bind.bind, Except.bind, Pure.pure,
      Except.pure, Except.map, List.zip, int_toNat_lit]
  · exact (Real.sqrt_lt_sqrt (by norm_num) (by norm_num)).ne'

/-- C10: totality of the nearest-wavelength index resolution
`wl.index(np.interp(t, wl, wl))` on a strictly increasing nonempty axis:
a target equal to the sample at index `j` resolves to `j`; a target below
the first sample resolves to index `0`; a target above the last sample
resolves to index `N - 1`; and a target strictly between two adjacent
samples makes the lookup raise `ValueError`, because the self-interpolated
value equals the target itself, which is not an element of the list. -/
theorem claim_C10_nearest_lookup_totality (wl : List ℝ) (hne : wl ≠ [])
    (hch : wl.Chain' (· < ·)) :
    (∀ (j : ℕ) (hj : j < wl.length), nearestIdx (wl.get ⟨j, hj⟩) wl = .ok j) ∧
    (∀ t : ℝ, t < wl.headI → nearestIdx t wl = .ok 0) ∧
    (∀ t : ℝ, wl.getLast hne < t → nearestIdx t wl = .ok (wl.length - 1)) ∧
    (∀ (t : ℝ) (j : ℕ) (hj : j + 1 < wl.length), wl.get ⟨j, by omega⟩ < t →
      t < wl.get ⟨j + 1, hj⟩ → nearestIdx t wl = .error .valueErr) := by
  have hp : wl.Pairwise (· < ·) := List.chain'_iff_pairwise.mp hch
  have hs : wl.Sorted (· < ·) := hp
  refine ⟨?_, ?_, ?_, ?_⟩
  · intro j hj
    have hsel : npInterpD (wl.get ⟨j, hj⟩) wl wl = wl.get ⟨j, hj⟩ :=
      npInterpD_self _ wl hne hch (headI_le_get wl hs j hj)
        (get_le_getLast wl hne hs j hj)
    unfold nearestIdx
    rw [hsel]
    exact pyIndex_get wl hp j hj
  · intro t ht
    cases wl with
    | nil => exact absurd rfl hne
    | cons w0 ws =>
        unfold nearestIdx
        rw [npInterpD_lt t w0 ws (by simpa [List.headI] using ht)]
        simp [pyIndex]
  · intro t ht
    unfold nearestIdx
    rw [npInterpD_gt t wl hne hch ht]
    exact pyIndex_getLast wl hne hp
  · intro t j hj h1 h2
    have hd : npInterpD t wl wl = t :=
      npInterpD_self t wl hne hch
        (le_trans (headI_le_get wl hs j (by omega)) (le_of_lt h1))
        (le_trans (le_of_lt h2) (get_le_getLast wl hne hs (j + 1) hj))
    unfold nearestIdx
    rw [hd]
    exact pyIndex_not_mem wl t (between_not_mem wl hs j hj t h1 h2)

/-- C10 witness: the axis `[400, 500, 600]` — sample `500` resolves to
index 1, `350` (below) to index 0, `700` (above) to index 2, and `450`
(strictly between samples) raises `ValueError`. -/
theorem claim_C10_nearest_lookup_totality_witness :
    nearestIdx 500 [400, 500, 600] = .ok 1 ∧
    nearestIdx 350 [400, 500, 600] = .ok 0 ∧
    nearestIdx 700 [400, 500, 600] = .ok 2 ∧
    nearestIdx 450 [400, 500, 600] = .error .valueErr := by
  have h := claim_C10_nearest_lookup_totality [400, 500, 600] (by simp)
    (by norm_num [List.chain'_cons])
  refine ⟨?_, ?_, ?_, ?_⟩
  · have h1 := h.1 1 (by norm_num)
    simpa using h1
  · exact h.2.1 350 (by norm_num [List.headI])
  · have h3 := h.2.2.1 700 (by norm_num [List.getLast])
    simpa using h3
  · exact h.2.2.2 450 0 (by norm_num) (by norm_num) (by norm_num)

end FluorSpec
